import Mathlib

/-!
Verification of the moving-average crossover detector in
app/checkMACrossSignal.py.

The detector works on a pandas data frame holding one column of close
prices (possibly with missing cells, i.e. NaN) plus OHLC companions that
never influence the computation.  We embed:

* calculate_ma : adds the two rolling means (window 5 and 20,
  min_periods 1), drops rows containing a missing value, keeps the most
  recent 100 rows, and fails exactly when the close column is absent
  (the KeyError branch);
* detect_cross : fails on a missing frame or fewer than 2 rows,
  otherwise annotates each row with Signal 1 / -1 / 0 by comparing the
  two means on the row and on the immediately preceding row;
* strategy_main : the orchestrator, whose observable effect we model as
  the number of alert e-mails attempted (it inspects only the last row).

Missing values are modelled by Option, prices by ℚ.  The OHLC columns
other than close are assumed free of missing values (the dropna call in
calculate_ma is then governed by close and the two mean columns alone),
so they are omitted from the embedding: no claim depends on them.
-/

namespace MACross

/-- Short moving-average window, SHORT_MA = 5 in the source. -/
def SHORT_MA : ℕ := 5

/-- Long moving-average window, LONG_MA = 20 in the source. -/
def LONG_MA : ℕ := 20

/-- One fetched data frame: its number of rows and, when the column
exists, the close column (a cell is none when the value is NaN). -/
structure RawFrame where
  nrows : ℕ
  close? : Option (List (Option ℚ))
deriving DecidableEq

/-- Row of the frame produced by calculate_ma after dropna: the close
price and the two rolling means, all present. -/
structure AnnRow where
  close : ℚ
  shortMA : ℚ
  longMA : ℚ
deriving DecidableEq

instance : Inhabited AnnRow := ⟨⟨0, 0, 0⟩⟩

/-- Row of the frame returned by detect_cross: close, the two means and
the Signal column (0 neutral, 1 golden cross, -1 death cross). -/
structure SigRow where
  close : ℚ
  shortMA : ℚ
  longMA : ℚ
  signal : ℤ
deriving DecidableEq

instance : Inhabited SigRow := ⟨⟨0, 0, 0, 0⟩⟩

/-- The rolling window of width w ending at row i, as in pandas
rolling(w): the last min(i+1, w) cells among the first i+1. -/
def rollWindow (w : ℕ) (xs : List (Option ℚ)) (i : ℕ) : List (Option ℚ) :=
  (xs.take (i + 1)).drop (i + 1 - w)

/-- Value of rolling(w, min_periods=1).mean() at row i: the mean of the
non-missing cells of the window, missing when all cells are missing. -/
def rollMeanAt (w : ℕ) (xs : List (Option ℚ)) (i : ℕ) : Option ℚ :=
  if ((rollWindow w xs i).filterMap id).length = 0 then none
  else some (((rollWindow w xs i).filterMap id).sum /
    ((((rollWindow w xs i).filterMap id).length : ℕ) : ℚ))

/-- Rows surviving dropna() after the two mean columns are added: the
rows whose close and both rolling means are present, in order. -/
def annRows (closes : List (Option ℚ)) : List AnnRow :=
  (List.range closes.length).filterMap (fun i =>
    match closes.getD i none, rollMeanAt SHORT_MA closes i,
        rollMeanAt LONG_MA closes i with
    | some c, some s, some l => some ⟨c, s, l⟩
    | _, _, _ => none)

/-- calculate_ma: computes the Short_MA and Long_MA columns, drops rows
containing NaN, keeps the most recent 100 rows, and returns None exactly
when the close column is absent (the KeyError handler). -/
def calculate_ma (df : RawFrame) : Option (List AnnRow) :=
  match df.close? with
  | none => none
  | some closes =>
      some ((annRows closes).drop ((annRows closes).length - 100))

/-- Signal value of row i, exactly the source's vectorised comparison:
1 when Short_MA is above Long_MA on row i and was not above on row i-1,
-1 in the symmetric case, 0 otherwise; row 0 is 0 because shift(1)
yields NaN there and every comparison with NaN is false. -/
def signalAt (rows : List AnnRow) (i : ℕ) : ℤ :=
  if i = 0 then 0
  else
    match rows.get? i, rows.get? (i - 1) with
    | some r, some p =>
        if r.shortMA > r.longMA ∧ p.shortMA ≤ p.longMA then 1
        else if r.shortMA < r.longMA ∧ p.shortMA ≥ p.longMA then -1
        else 0
    | _, _ => 0

/-- detect_cross: None on a missing frame or fewer than 2 rows,
otherwise the same rows carrying their Signal values. -/
def detect_cross (df : Option (List AnnRow)) : Option (List SigRow) :=
  match df with
  | none => none
  | some rows =>
      if rows.length < 2 then none
      else
        some ((List.range rows.length).map (fun i =>
          let r := rows.getD i default
          ⟨r.close, r.shortMA, r.longMA, signalAt rows i⟩))

/-- The detector pipeline applied to a fetched frame, as sequenced by
strategy_main. -/
def detectPipeline (df : RawFrame) : Option (List SigRow) :=
  detect_cross (calculate_ma df)

/-- strategy_main's observable effect: the number of alert e-mails
attempted in one run.  Each bail-out branch of the source (fetch failed,
empty frame, calculate_ma None, detect_cross None) sends nothing;
otherwise only the last row is inspected and one e-mail is attempted
when its Signal is non-zero (abs(latest.Signal) > 0 in the source). -/
def strategy_main (fetched : Option RawFrame) : ℕ :=
  match fetched with
  | none => 0
  | some df =>
      if df.nrows = 0 then 0
      else
        match calculate_ma df with
        | none => 0
        | some ann =>
            match detect_cross (some ann) with
            | none => 0
            | some rows =>
                match rows.getLast? with
                | none => 0
                | some latest => if 0 < latest.signal.natAbs then 1 else 0

/-- Specification-side trailing mean, following the spec's words: the
arithmetic mean of the closes of the trailing min(i+1, w) bars ending at
bar i, written as an indexed sum over that range of bar indices. -/
def specTrailingMean (w : ℕ) (closes : List ℚ) (i : ℕ) : ℚ :=
  (∑ j in Finset.Icc (i + 1 - min (i + 1) w) i, closes.getD j 0) /
    ((min (i + 1) w : ℕ) : ℚ)

/-- Closed form of the rolling mean on a column with no missing cells. -/
def maAt (w : ℕ) (closes : List ℚ) (i : ℕ) : ℚ :=
  ((closes.take (i + 1)).drop (i + 1 - w)).sum / ((min (i + 1) w : ℕ) : ℚ)

/-- Two-plateau step series: a bars at p followed by b bars at q. -/
def stepSeries (a b : ℕ) (p q : ℚ) : List ℚ :=
  List.replicate a p ++ List.replicate b q

/-- A frame whose close column is fully present. -/
def mkFrame (closes : List ℚ) : RawFrame :=
  ⟨closes.length, some (closes.map some)⟩

/-! ### Basic helpers -/

lemma get?_eq_some_getD {α : Type} (l : List α) (d : α) (i : ℕ)
    (hi : i < l.length) : l.get? i = some (l.getD i d) := by
  rw [List.get?_eq_getElem?, List.getD_eq_getElem?_getD,
    List.getElem?_eq_getElem hi]
  rfl

lemma filterMap_eq_map_on {α β : Type} (f : α → Option β) (g : α → β) :
    ∀ l : List α, (∀ a ∈ l, f a = some (g a)) → l.filterMap f = l.map g := by
  intro l
  induction l with
  | nil => intro _; rfl
  | cons a l ih =>
      intro h
      rw [List.filterMap_cons, h a (by simp), List.map_cons,
        ih (fun x hx => h x (by simp [hx]))]

lemma getD_map_range {β : Type} [Inhabited β] (n : ℕ) (f : ℕ → β) (i : ℕ)
    (hi : i < n) : ((List.range n).map f).getD i default = f i := by
  rw [List.getD_eq_getElem?_getD, List.getElem?_map, List.getElem?_range hi]
  rfl

lemma getD_eq_getElem {α : Type} (l : List α) (d : α) (i : ℕ)
    (hi : i < l.length) : l.getD i d = l[i] := by
  rw [List.getD_eq_getElem?_getD, List.getElem?_eq_getElem hi]
  rfl

lemma map_getD_range {α β : Type} (l : List α) (d : α) (g : α → β) :
    (List.range l.length).map (fun i => g (l.getD i d)) = l.map g := by
  apply List.ext_getElem (by simp)
  intro n h1 h2
  have hn : n < l.length := by simpa using h2
  have hgd : l.getD n d = l[n] := getD_eq_getElem l d n hn
  simp only [List.getElem_map, List.getElem_range]
  rw [hgd]

/-! ### The rolling mean on a fully present column -/

lemma rollWindow_map_some (w : ℕ) (cs : List ℚ) (i : ℕ) :
    rollWindow w (cs.map some) i = ((cs.take (i + 1)).drop (i + 1 - w)).map some := by
  unfold rollWindow
  rw [List.map_drop, List.map_take]

lemma rollWindow_vals (w : ℕ) (cs : List ℚ) (i : ℕ) :
    (rollWindow w (cs.map some) i).filterMap id =
      (cs.take (i + 1)).drop (i + 1 - w) := by
  rw [rollWindow_map_some, List.filterMap_map]
  simp [Function.comp_def]

lemma window_length (w : ℕ) (cs : List ℚ) (i : ℕ) (hi : i < cs.length) :
    ((cs.take (i + 1)).drop (i + 1 - w)).length = min (i + 1) w := by
  rw [List.length_drop, List.length_take]
  omega

lemma rollMeanAt_map_some (w : ℕ) (hw : 1 ≤ w) (cs : List ℚ) (i : ℕ)
    (hi : i < cs.length) :
    rollMeanAt w (cs.map some) i = some (maAt w cs i) := by
  unfold rollMeanAt maAt
  rw [rollWindow_vals, window_length w cs i hi]
  rw [if_neg (by omega)]

lemma getD_map_some (cs : List ℚ) (i : ℕ) (hi : i < cs.length) :
    (cs.map some).getD i none = some (cs.getD i 0) := by
  rw [List.getD_eq_getElem?_getD, List.getD_eq_getElem?_getD, List.getElem?_map,
    List.getElem?_eq_getElem hi]
  rfl

lemma annRows_map_some (cs : List ℚ) :
    annRows (cs.map some) =
      (List.range cs.length).map (fun i =>
        ⟨cs.getD i 0, maAt SHORT_MA cs i, maAt LONG_MA cs i⟩) := by
  unfold annRows
  rw [List.length_map]
  apply filterMap_eq_map_on
  intro i hi
  have hi' : i < cs.length := List.mem_range.mp hi
  rw [getD_map_some cs i hi',
    rollMeanAt_map_some SHORT_MA (by norm_num [SHORT_MA]) cs i hi',
    rollMeanAt_map_some LONG_MA (by norm_num [LONG_MA]) cs i hi']

lemma annRows_map_some_length (cs : List ℚ) :
    (annRows (cs.map some)).length = cs.length := by
  rw [annRows_map_some]
  simp

lemma annRows_map_some_getD (cs : List ℚ) (i : ℕ) (hi : i < cs.length) :
    (annRows (cs.map some)).getD i default =
      ⟨cs.getD i 0, maAt SHORT_MA cs i, maAt LONG_MA cs i⟩ := by
  rw [annRows_map_some, getD_map_range cs.length _ i hi]

/-! ### detect_cross unfolding lemmas -/

lemma detect_cross_some_inv (rows : List AnnRow) (out : List SigRow)
    (h : detect_cross (some rows) = some out) :
    2 ≤ rows.length ∧
      out = (List.range rows.length).map (fun i =>
        let r := rows.getD i default
        ⟨r.close, r.shortMA, r.longMA, signalAt rows i⟩) := by
  simp only [detect_cross] at h
  by_cases h2 : rows.length < 2
  · rw [if_pos h2] at h
    cases h
  · rw [if_neg h2] at h
    exact ⟨by omega, (Option.some.inj h).symm⟩

lemma detect_cross_of_two_le (rows : List AnnRow) (h2 : 2 ≤ rows.length) :
    detect_cross (some rows) = some ((List.range rows.length).map (fun i =>
      let r := rows.getD i default
      ⟨r.close, r.shortMA, r.longMA, signalAt rows i⟩)) := by
  simp only [detect_cross]
  rw [if_neg (by omega)]

lemma detect_cross_out_getD (rows : List AnnRow) (out : List SigRow)
    (h : detect_cross (some rows) = some out) (i : ℕ) (hi : i < rows.length) :
    out.getD i default =
      ⟨(rows.getD i default).close, (rows.getD i default).shortMA,
        (rows.getD i default).longMA, signalAt rows i⟩ := by
  obtain ⟨-, rfl⟩ := detect_cross_some_inv rows out h
  rw [getD_map_range rows.length _ i hi]

lemma signalAt_zero (rows : List AnnRow) : signalAt rows 0 = 0 := by
  unfold signalAt
  simp

lemma signalAt_pos (rows : List AnnRow) (i : ℕ) (h1 : 1 ≤ i)
    (hi : i < rows.length) :
    signalAt rows i =
      if (rows.getD i default).shortMA > (rows.getD i default).longMA ∧
          (rows.getD (i - 1) default).shortMA ≤ (rows.getD (i - 1) default).longMA
      then 1
      else if (rows.getD i default).shortMA < (rows.getD i default).longMA ∧
          (rows.getD (i - 1) default).shortMA ≥ (rows.getD (i - 1) default).longMA
      then -1
      else 0 := by
  unfold signalAt
  rw [if_neg (by omega), get?_eq_some_getD rows default i hi,
    get?_eq_some_getD rows default (i - 1) (by omega)]

/-! ### Claim C1 -/

/-- C1: on every annotated series accepted by detect_cross, the Signal at
row i (i ≥ 1) is 1 iff Short_MA is strictly above Long_MA at i while it
was at-or-below at i-1, is -1 iff strictly below at i while at-or-above
at i-1, and is 0 exactly otherwise; row 0 always carries Signal 0. -/
theorem detect_cross_signal_iff (rows : List AnnRow) (out : List SigRow)
    (hout : detect_cross (some rows) = some out) (i : ℕ) (hi : i < rows.length)
    (h1 : 1 ≤ i) :
    ((out.getD 0 default).signal = 0) ∧
    (((out.getD i default).signal = 1) ↔
      ((rows.getD i default).shortMA > (rows.getD i default).longMA ∧
       (rows.getD (i - 1) default).shortMA ≤ (rows.getD (i - 1) default).longMA)) ∧
    (((out.getD i default).signal = -1) ↔
      ((rows.getD i default).shortMA < (rows.getD i default).longMA ∧
       (rows.getD (i - 1) default).shortMA ≥ (rows.getD (i - 1) default).longMA)) ∧
    (((out.getD i default).signal = 0) ↔
      (¬((rows.getD i default).shortMA > (rows.getD i default).longMA ∧
         (rows.getD (i - 1) default).shortMA ≤ (rows.getD (i - 1) default).longMA) ∧
       ¬((rows.getD i default).shortMA < (rows.getD i default).longMA ∧
         (rows.getD (i - 1) default).shortMA ≥ (rows.getD (i - 1) default).longMA))) := by
  have h0 : 0 < rows.length := by omega
  rw [detect_cross_out_getD rows out hout 0 h0,
    detect_cross_out_getD rows out hout i hi]
  dsimp only
  rw [signalAt_zero rows, signalAt_pos rows i h1 hi]
  refine ⟨rfl, ?_⟩
  by_cases hu : (rows.getD i default).shortMA > (rows.getD i default).longMA ∧
      (rows.getD (i - 1) default).shortMA ≤ (rows.getD (i - 1) default).longMA
  · have hnd : ¬((rows.getD i default).shortMA < (rows.getD i default).longMA ∧
        (rows.getD (i - 1) default).shortMA ≥ (rows.getD (i - 1) default).longMA) :=
      fun hd => absurd hd.1 (not_lt.mpr (le_of_lt hu.1))
    rw [if_pos hu]
    exact ⟨iff_of_true rfl hu, iff_of_false (by decide) hnd,
      iff_of_false (by decide) (fun hc => hc.1 hu)⟩
  · rw [if_neg hu]
    by_cases hd : (rows.getD i default).shortMA < (rows.getD i default).longMA ∧
        (rows.getD (i - 1) default).shortMA ≥ (rows.getD (i - 1) default).longMA
    · rw [if_pos hd]
      exact ⟨iff_of_false (by decide) hu, iff_of_true rfl hd,
        iff_of_false (by decide) (fun hc => hc.2 hd)⟩
    · rw [if_neg hd]
      exact ⟨iff_of_false (by decide) hu, iff_of_false (by decide) hd,
        iff_of_true rfl ⟨hu, hd⟩⟩

/-- Witness for C1 on a concrete two-row annotated series carrying an
upward cross at row 1. -/
theorem detect_cross_signal_iff_witness :
    (([⟨10, 1, 2, 0⟩, ⟨12, 3, 2, 1⟩] : List SigRow).getD 1 default).signal = 1 :=
  ((detect_cross_signal_iff [⟨10, 1, 2⟩, ⟨12, 3, 2⟩]
      [⟨10, 1, 2, 0⟩, ⟨12, 3, 2, 1⟩] (by decide) 1 (by decide)
      (by decide)).2.1).mpr (by constructor <;> norm_num)

/-! ### Claim C3 -/

/-- C3: a row where the two averages are exactly equal never fires a
cross, and the Signal at row i depends only on the rows at positions i
and i-1 (one-bar lookback), so after a run of exact ties the bar where
strict inequality resumes fires exactly according to the one-bar rule. -/
theorem equality_no_cross_one_bar_lookback (rows rowsB : List AnnRow) (i : ℕ) :
    ((rows.getD i default).shortMA = (rows.getD i default).longMA →
      i < rows.length → signalAt rows i = 0) ∧
    (rows.get? i = rowsB.get? i → rows.get? (i - 1) = rowsB.get? (i - 1) →
      signalAt rows i = signalAt rowsB i) := by
  constructor
  · intro heq hi
    rcases Nat.eq_zero_or_pos i with h0 | h1
    · subst h0
      exact signalAt_zero rows
    · rw [signalAt_pos rows i h1 hi]
      have hnu : ¬((rows.getD i default).shortMA > (rows.getD i default).longMA ∧
          (rows.getD (i - 1) default).shortMA ≤ (rows.getD (i - 1) default).longMA) := by
        intro hc
        rw [heq] at hc
        exact absurd hc.1 (lt_irrefl _)
      have hnd : ¬((rows.getD i default).shortMA < (rows.getD i default).longMA ∧
          (rows.getD (i - 1) default).shortMA ≥ (rows.getD (i - 1) default).longMA) := by
        intro hc
        rw [heq] at hc
        exact absurd hc.1 (lt_irrefl _)
      rw [if_neg hnu, if_neg hnd]
  · intro hgi hgp
    unfold signalAt
    rw [hgi, hgp]

/-- Witness for C3 on a concrete tied series. -/
theorem equality_no_cross_one_bar_lookback_witness :
    signalAt [⟨0, 1, 1⟩, ⟨0, 1, 1⟩] 1 = 0 ∧
      signalAt [⟨0, 1, 1⟩, ⟨0, 1, 1⟩] 1 = signalAt [⟨0, 1, 1⟩, ⟨0, 1, 1⟩] 1 :=
  ⟨(equality_no_cross_one_bar_lookback [⟨0, 1, 1⟩, ⟨0, 1, 1⟩]
      [⟨0, 1, 1⟩, ⟨0, 1, 1⟩] 1).1 (by decide) (by decide),
   (equality_no_cross_one_bar_lookback [⟨0, 1, 1⟩, ⟨0, 1, 1⟩]
      [⟨0, 1, 1⟩, ⟨0, 1, 1⟩] 1).2 rfl rfl⟩

/-! ### Claim C5 -/

/-- C5: detect_cross rejects the missing frame and every series with
fewer than 2 rows (returning None, so no signals are assigned); a 2-row
annotated series is the smallest input producing a non-neutral signal,
which can only appear at index 1 because index 0 always gets Signal 0. -/
theorem detect_cross_min_length :
    (detect_cross none = none) ∧
    (∀ rows : List AnnRow, rows.length < 2 → detect_cross (some rows) = none) ∧
    ((detect_cross (some [⟨10, 1, 2⟩, ⟨12, 3, 2⟩])).map
        (fun out => out.map SigRow.signal) = some [0, 1]) ∧
    (∀ rows out, detect_cross (some rows) = some out →
      (out.getD 0 default).signal = 0) := by
  refine ⟨rfl, ?_, by decide, ?_⟩
  · intro rows h2
    simp only [detect_cross]
    rw [if_pos h2]
  · intro rows out hout
    obtain ⟨h2, -⟩ := detect_cross_some_inv rows out hout
    rw [detect_cross_out_getD rows out hout 0 (by omega)]
    exact signalAt_zero rows

/-- Witness for C5: the empty series is rejected. -/
theorem detect_cross_min_length_witness :
    detect_cross (some ([] : List AnnRow)) = none :=
  detect_cross_min_length.2.1 [] (by decide)

/-! ### Claim C7 -/

/-- C7: the detector is deterministic and free of hidden state: equal
fetched frames produce identical annotated outputs on every stage, and
running it twice yields the same result.  In the source this purity is
realised by calculate_ma working on df.copy(), so the input frame is
never modified; the embedding is a pure function of the frame by
construction. -/
theorem detector_deterministic (df1 df2 : RawFrame) (h : df1 = df2) :
    detectPipeline df1 = detectPipeline df2 ∧
      calculate_ma df1 = calculate_ma df2 ∧
      strategy_main (some df1) = strategy_main (some df2) := by
  subst h
  exact ⟨rfl, rfl, rfl⟩

/-- Witness for C7 at a concrete frame. -/
theorem detector_deterministic_witness :
    detectPipeline (mkFrame [1, 2]) = detectPipeline (mkFrame [1, 2]) :=
  (detector_deterministic (mkFrame [1, 2]) (mkFrame [1, 2]) rfl).1

/-! ### Claim C2: the rolling mean is the trailing-window mean -/

lemma getElem?_eq_some_getD {α : Type} (l : List α) (d : α) (i : ℕ)
    (hi : i < l.length) : l[i]? = some (l.getD i d) := by
  rw [List.getElem?_eq_getElem hi, getD_eq_getElem l d i hi]

lemma sum_take_drop_eq_range_sum (cs : List ℚ) :
    ∀ (t d : ℕ), d + t ≤ cs.length →
      ((cs.drop d).take t).sum = ∑ j in Finset.range t, cs.getD (d + j) 0 := by
  intro t
  induction t with
  | zero => intro d _; simp
  | succ t ih =>
      intro d hdt
      rw [List.take_succ, List.sum_append, ih d (by omega), Finset.sum_range_succ]
      have hget : (cs.drop d)[t]? = some (cs.getD (d + t) 0) := by
        rw [List.getElem?_drop]
        exact getElem?_eq_some_getD cs 0 (d + t) (by omega)
      rw [hget]
      simp

lemma maAt_eq_specTrailingMean (w : ℕ) (hw : 1 ≤ w) (cs : List ℚ) (i : ℕ)
    (hi : i < cs.length) : maAt w cs i = specTrailingMean w cs i := by
  unfold maAt specTrailingMean
  rw [List.drop_take, sum_take_drop_eq_range_sum cs ((i + 1) - (i + 1 - w))
    (i + 1 - w) (by omega)]
  rw [← Nat.Ico_succ_right, Finset.sum_Ico_eq_sum_range]
  have ht : (i + 1) - (i + 1 - w) = min (i + 1) w := by omega
  have hd : i + 1 - w = i + 1 - min (i + 1) w := by omega
  have hn : Nat.succ i - (i + 1 - min (i + 1) w) = min (i + 1) w := by omega
  rw [ht, hd, hn]

/-- C2: with every close present, the short average computed by
calculate_ma at row i equals the arithmetic mean of the trailing
min(i+1, 5) closes ending at i, and the long average the mean of the
trailing min(i+1, 20) closes; warm-up rows use all bars available so
far instead of being undefined. -/
theorem calculate_ma_trailing_mean (cs : List ℚ) (i : ℕ) (hi : i < cs.length) :
    rollMeanAt SHORT_MA (cs.map some) i = some (specTrailingMean SHORT_MA cs i) ∧
    rollMeanAt LONG_MA (cs.map some) i = some (specTrailingMean LONG_MA cs i) ∧
    (annRows (cs.map some)).getD i default =
      ⟨cs.getD i 0, specTrailingMean SHORT_MA cs i,
        specTrailingMean LONG_MA cs i⟩ := by
  have h5 := maAt_eq_specTrailingMean SHORT_MA (by norm_num [SHORT_MA]) cs i hi
  have h20 := maAt_eq_specTrailingMean LONG_MA (by norm_num [LONG_MA]) cs i hi
  refine ⟨?_, ?_, ?_⟩
  · rw [rollMeanAt_map_some SHORT_MA (by norm_num [SHORT_MA]) cs i hi, h5]
  · rw [rollMeanAt_map_some LONG_MA (by norm_num [LONG_MA]) cs i hi, h20]
  · rw [annRows_map_some_getD cs i hi, h5, h20]

/-- Witness for C2 at a concrete two-bar series. -/
theorem calculate_ma_trailing_mean_witness :
    rollMeanAt SHORT_MA (([1, 3] : List ℚ).map some) 1 =
      some (specTrailingMean SHORT_MA [1, 3] 1) ∧
    rollMeanAt LONG_MA (([1, 3] : List ℚ).map some) 1 =
      some (specTrailingMean LONG_MA [1, 3] 1) ∧
    (annRows (([1, 3] : List ℚ).map some)).getD 1 default =
      ⟨([1, 3] : List ℚ).getD 1 0, specTrailingMean SHORT_MA [1, 3] 1,
        specTrailingMean LONG_MA [1, 3] 1⟩ :=
  calculate_ma_trailing_mean [1, 3] 1 (by decide)

/-! ### The pipeline on a fully present column -/

lemma calculate_ma_mkFrame (cs : List ℚ) :
    calculate_ma (mkFrame cs) =
      some ((annRows (cs.map some)).drop (cs.length - 100)) := by
  simp only [calculate_ma, mkFrame]
  rw [annRows_map_some_length]

lemma pipeline_shape_aux (cs : List ℚ) (h2 : 2 ≤ cs.length) :
    detectPipeline (mkFrame cs) =
      some ((List.range ((annRows (cs.map some)).drop (cs.length - 100)).length).map
        (fun i =>
          let r := ((annRows (cs.map some)).drop (cs.length - 100)).getD i default
          ⟨r.close, r.shortMA, r.longMA,
            signalAt ((annRows (cs.map some)).drop (cs.length - 100)) i⟩)) ∧
    ((annRows (cs.map some)).drop (cs.length - 100)).length = min cs.length 100 := by
  have hlen : ((annRows (cs.map some)).drop (cs.length - 100)).length
      = min cs.length 100 := by
    rw [List.length_drop, annRows_map_some_length]
    omega
  refine ⟨?_, hlen⟩
  unfold detectPipeline
  rw [calculate_ma_mkFrame]
  exact detect_cross_of_two_le _ (by omega)

lemma pipeline_mkFrame_isSome (cs : List ℚ) (h2 : 2 ≤ cs.length) :
    (detectPipeline (mkFrame cs)).isSome = true := by
  rw [(pipeline_shape_aux cs h2).1]
  rfl

lemma pipeline_mkFrame_length (cs : List ℚ) (h2 : 2 ≤ cs.length)
    (out : List SigRow) (hout : detectPipeline (mkFrame cs) = some out) :
    out.length = min cs.length 100 := by
  obtain ⟨heq, hlen⟩ := pipeline_shape_aux cs h2
  rw [heq] at hout
  rw [← Option.some.inj hout, List.length_map, List.length_range, hlen]

lemma annRows_map_close (cs : List ℚ) :
    (annRows (cs.map some)).map AnnRow.close = cs := by
  rw [annRows_map_some, List.map_map]
  have hcomp : (AnnRow.close ∘ fun i =>
      (⟨cs.getD i 0, maAt SHORT_MA cs i, maAt LONG_MA cs i⟩ : AnnRow)) =
      fun i => cs.getD i 0 := rfl
  rw [hcomp]
  have h := map_getD_range cs 0 id
  simpa using h

lemma pipeline_mkFrame_closes (cs : List ℚ) (h2 : 2 ≤ cs.length)
    (out : List SigRow) (hout : detectPipeline (mkFrame cs) = some out) :
    out.map SigRow.close = cs.drop (cs.length - 100) := by
  obtain ⟨heq, hlen⟩ := pipeline_shape_aux cs h2
  rw [heq] at hout
  rw [← Option.some.inj hout, List.map_map]
  have hcomp : (SigRow.close ∘ fun i =>
      let r := ((annRows (cs.map some)).drop (cs.length - 100)).getD i default
      (⟨r.close, r.shortMA, r.longMA,
        signalAt ((annRows (cs.map some)).drop (cs.length - 100)) i⟩ : SigRow)) =
      fun i => (((annRows (cs.map some)).drop (cs.length - 100)).getD i default).close :=
    rfl
  rw [hcomp, map_getD_range ((annRows (cs.map some)).drop (cs.length - 100))
    default AnnRow.close]
  rw [List.map_drop, annRows_map_close]

/-! ### Claim C6 -/

/-- C6 (amended): on every accepted fully-present series the pipeline
emits exactly one annotated row per input bar among the most recent
min(n, 100) bars: calculate_ma keeps only the last 100 rows, so longer
series are truncated before detection, and nothing else is dropped. -/
theorem pipeline_output_shape (cs : List ℚ) (h2 : 2 ≤ cs.length) :
    (detectPipeline (mkFrame cs)).isSome = true ∧
    ∀ out, detectPipeline (mkFrame cs) = some out →
      out.length = min cs.length 100 ∧
      out.map SigRow.close = cs.drop (cs.length - 100) :=
  ⟨pipeline_mkFrame_isSome cs h2, fun out hout =>
    ⟨pipeline_mkFrame_length cs h2 out hout,
     pipeline_mkFrame_closes cs h2 out hout⟩⟩

/-- Counterexample to C6 as stated: a fully present 101-bar constant
series is accepted, yet the pipeline returns only 100 annotated rows,
not one per input bar. -/
theorem pipeline_truncates_cex :
    (detectPipeline (mkFrame (List.replicate 101 (1 : ℚ)))).map List.length =
      some 100 ∧ (100 : ℕ) ≠ 101 := by
  refine ⟨?_, by decide⟩
  cases hp : detectPipeline (mkFrame (List.replicate 101 (1 : ℚ))) with
  | none =>
      have hs := pipeline_mkFrame_isSome (List.replicate 101 (1 : ℚ)) (by simp)
      rw [hp] at hs
      simp at hs
  | some out =>
      have hl := pipeline_mkFrame_length (List.replicate 101 (1 : ℚ)) (by simp)
        out hp
      have hl' : out.length = 100 := by
        rw [hl]
        simp
      simp [hl']

/-- Witness for the amended C6 at a concrete accepted series. -/
theorem pipeline_output_shape_witness :
    (detectPipeline (mkFrame [1, 2])).isSome = true :=
  (pipeline_output_shape [1, 2] (by decide)).1

/-! ### Claim C4: bars lacking a close price -/

lemma rollMeanAt_isSome_of_close (w : ℕ) (hw : 1 ≤ w) (closes : List (Option ℚ))
    (i : ℕ) (hi : i < closes.length) (c : ℚ) (hc : closes.getD i none = some c) :
    (rollMeanAt w closes i).isSome = true := by
  have hwin : (rollWindow w closes i)[i - (i + 1 - w)]? = some (some c) := by
    unfold rollWindow
    rw [List.getElem?_drop]
    have harg : i + 1 - w + (i - (i + 1 - w)) = i := by omega
    rw [harg, List.getElem?_take_of_lt (by omega), ← hc]
    exact getElem?_eq_some_getD closes none i hi
  have hmem : c ∈ (rollWindow w closes i).filterMap id :=
    List.mem_filterMap.mpr ⟨some c, List.getElem?_mem hwin, rfl⟩
  unfold rollMeanAt
  rw [if_neg]
  · rfl
  · intro h0
    rw [List.length_eq_zero] at h0
    rw [h0] at hmem
    exact absurd hmem (List.not_mem_nil c)

lemma annRows_close_mem (closes : List (Option ℚ)) (r : AnnRow)
    (hr : r ∈ annRows closes) : some r.close ∈ closes := by
  unfold annRows at hr
  obtain ⟨i, hi, hfi⟩ := List.mem_filterMap.mp hr
  have hi' : i < closes.length := List.mem_range.mp hi
  rcases h1 : closes.getD i none with _ | c
  · rw [h1] at hfi
    exact Option.noConfusion hfi
  · rcases h2 : rollMeanAt SHORT_MA closes i with _ | s
    · rw [h1, h2] at hfi
      exact Option.noConfusion hfi
    · rcases h3 : rollMeanAt LONG_MA closes i with _ | l
      · rw [h1, h2, h3] at hfi
        exact Option.noConfusion hfi
      · rw [h1, h2, h3] at hfi
        have hrr : r = ⟨c, s, l⟩ := (Option.some.inj hfi).symm
        rw [hrr]
        have hcm : closes[i] = some c :=
          (getD_eq_getElem closes none i hi').symm.trans h1
        exact hcm ▸ List.getElem_mem hi'

/-- C4 (amended): calculate_ma signals an input error exactly when the
whole close column is absent (the KeyError branch); when the column is
present the series is never rejected, even if individual bars lack a
close — the rolling means at a bar whose close is present are defined
(computed over the available, non-missing values of the window), and
every surviving output row's close is one of the present input values,
so bars lacking a close are silently dropped, never defaulted. -/
theorem missing_close_amended :
    (∀ n : ℕ, calculate_ma ⟨n, none⟩ = none) ∧
    (∀ (n : ℕ) (closes : List (Option ℚ)),
      (calculate_ma ⟨n, some closes⟩).isSome = true) ∧
    (∀ (closes : List (Option ℚ)) (i : ℕ), i < closes.length →
      ∀ c : ℚ, closes.getD i none = some c →
        (rollMeanAt SHORT_MA closes i).isSome = true ∧
        (rollMeanAt LONG_MA closes i).isSome = true) ∧
    (∀ (n : ℕ) (closes : List (Option ℚ)) (r : AnnRow),
      r ∈ (calculate_ma ⟨n, some closes⟩).getD [] → some r.close ∈ closes) := by
  refine ⟨fun n => rfl, fun n closes => rfl, ?_, ?_⟩
  · intro closes i hi c hc
    exact ⟨rollMeanAt_isSome_of_close SHORT_MA (by norm_num [SHORT_MA])
        closes i hi c hc,
      rollMeanAt_isSome_of_close LONG_MA (by norm_num [LONG_MA]) closes i hi c hc⟩
  · intro n closes r hr
    have hgd : (calculate_ma ⟨n, some closes⟩).getD [] =
        (annRows closes).drop ((annRows closes).length - 100) := rfl
    rw [hgd] at hr
    exact annRows_close_mem closes r (List.drop_subset _ _ hr)

/-- Counterexample to C4 as stated: a 3-bar series whose middle bar
lacks a close is not rejected by the pipeline (the result is not null);
the rolling mean at the last bar is computed over the available values
only — the missing cell is silently skipped, giving (1 + 2) / 2. -/
theorem missing_close_not_error_cex :
    none ∈ [some (1 : ℚ), none, some 2] ∧
    (detectPipeline ⟨3, some [some (1 : ℚ), none, some 2]⟩).isSome = true ∧
    rollMeanAt SHORT_MA [some (1 : ℚ), none, some 2] 2 = some (3 / 2) :=
  ⟨by decide, by rfl, by
    have hfm : List.filterMap id (rollWindow SHORT_MA [some (1 : ℚ), none, some 2] 2)
        = [1, 2] := rfl
    unfold rollMeanAt
    rw [hfm]
    norm_num⟩

/-- Witness for the amended C4 at concrete frames. -/
theorem missing_close_amended_witness :
    calculate_ma ⟨2, none⟩ = none ∧
    (calculate_ma ⟨3, some [some (1 : ℚ), none, some 2]⟩).isSome = true ∧
    ((rollMeanAt SHORT_MA [some (1 : ℚ), none, some 2] 0).isSome = true ∧
      (rollMeanAt LONG_MA [some (1 : ℚ), none, some 2] 0).isSome = true) :=
  ⟨missing_close_amended.1 2,
   missing_close_amended.2.1 3 [some 1, none, some 2],
   missing_close_amended.2.2.1 [some 1, none, some 2] 0 (by decide) 1 (by decide)⟩

/-! ### Accessing the pipeline result -/

lemma pipeline_getD (cs : List ℚ) (h2 : 2 ≤ cs.length) :
    (detectPipeline (mkFrame cs)).getD [] =
      (List.range ((annRows (cs.map some)).drop (cs.length - 100)).length).map
        (fun i =>
          let r := ((annRows (cs.map some)).drop (cs.length - 100)).getD i default
          ⟨r.close, r.shortMA, r.longMA,
            signalAt ((annRows (cs.map some)).drop (cs.length - 100)) i⟩) := by
  rw [(pipeline_shape_aux cs h2).1]
  rfl

lemma pipeline_getD_map_signal (cs : List ℚ) (h2 : 2 ≤ cs.length) :
    ((detectPipeline (mkFrame cs)).getD []).map SigRow.signal =
      (List.range ((annRows (cs.map some)).drop (cs.length - 100)).length).map
        (fun i => signalAt ((annRows (cs.map some)).drop (cs.length - 100)) i) := by
  rw [pipeline_getD cs h2, List.map_map]
  rfl

lemma pipeline_getD_signal_at (cs : List ℚ) (h2 : 2 ≤ cs.length) (i : ℕ)
    (hi : i < ((annRows (cs.map some)).drop (cs.length - 100)).length) :
    (((detectPipeline (mkFrame cs)).getD []).getD i default).signal =
      signalAt ((annRows (cs.map some)).drop (cs.length - 100)) i := by
  rw [pipeline_getD cs h2, getD_map_range _ _ i hi]

lemma pipeline_getD_length (cs : List ℚ) (h2 : 2 ≤ cs.length) :
    ((detectPipeline (mkFrame cs)).getD []).length = min cs.length 100 := by
  rw [pipeline_getD cs h2, List.length_map, List.length_range,
    (pipeline_shape_aux cs h2).2]

/-! ### Claim C8: constant series -/

lemma maAt_replicate (w : ℕ) (hw : 1 ≤ w) (c : ℚ) (n i : ℕ) (hi : i < n) :
    maAt w (List.replicate n c) i = c := by
  unfold maAt
  rw [List.take_replicate, List.drop_replicate, List.sum_replicate]
  have hmin : min (i + 1) n = i + 1 := by omega
  rw [hmin]
  have hlen : i + 1 - (i + 1 - w) = min (i + 1) w := by omega
  rw [hlen, nsmul_eq_mul]
  exact mul_div_cancel_left₀ c (Nat.cast_ne_zero.mpr (by omega))

lemma annRows_replicate (c : ℚ) (n : ℕ) :
    annRows ((List.replicate n c).map some) = List.replicate n ⟨c, c, c⟩ := by
  rw [annRows_map_some]
  have hcong : ∀ i ∈ List.range (List.replicate n c).length,
      (⟨(List.replicate n c).getD i 0, maAt SHORT_MA (List.replicate n c) i,
        maAt LONG_MA (List.replicate n c) i⟩ : AnnRow) = ⟨c, c, c⟩ := by
    intro i hi
    have hi' : i < n := by simpa using List.mem_range.mp hi
    have h1 : (List.replicate n c).getD i 0 = c := by
      rw [getD_eq_getElem _ 0 i (by simpa using hi'), List.getElem_replicate]
    rw [h1, maAt_replicate SHORT_MA (by norm_num [SHORT_MA]) c n i hi',
      maAt_replicate LONG_MA (by norm_num [LONG_MA]) c n i hi']
  rw [List.map_congr_left hcong, List.map_const']
  simp

lemma signalAt_const (m : ℕ) (R : AnnRow) (hR : R.shortMA = R.longMA) (i : ℕ) :
    signalAt (List.replicate m R) i = 0 := by
  unfold signalAt
  by_cases h0 : i = 0
  · rw [if_pos h0]
  · rw [if_neg h0]
    cases hgi : (List.replicate m R).get? i with
    | none => rfl
    | some r =>
        cases hgp : (List.replicate m R).get? (i - 1) with
        | none => rfl
        | some p =>
            have hr : r = R := List.eq_of_mem_replicate (List.get?_mem hgi)
            have hp : p = R := List.eq_of_mem_replicate (List.get?_mem hgp)
            dsimp only
            rw [hr, hp]
            have hnu : ¬(R.shortMA > R.longMA ∧ R.shortMA ≤ R.longMA) :=
              fun hc => absurd hc.1 (by rw [hR]; exact lt_irrefl _)
            have hnd : ¬(R.shortMA < R.longMA ∧ R.shortMA ≥ R.longMA) :=
              fun hc => absurd hc.1 (by rw [hR]; exact lt_irrefl _)
            rw [if_neg hnu, if_neg hnd]

/-- C8: a constant-price series of any accepted length yields Signal 0
on every bar: the counts of upward-cross and downward-cross signals in
the pipeline output are both zero. -/
theorem constant_series_no_signal (c : ℚ) (n : ℕ) (h2 : 2 ≤ n) :
    (detectPipeline (mkFrame (List.replicate n c))).isSome = true ∧
    (((detectPipeline (mkFrame (List.replicate n c))).getD []).map
        SigRow.signal).count 1 = 0 ∧
    (((detectPipeline (mkFrame (List.replicate n c))).getD []).map
        SigRow.signal).count (-1) = 0 := by
  have h2' : 2 ≤ (List.replicate n c).length := by simpa using h2
  have hrep : (annRows ((List.replicate n c).map some)).drop
        ((List.replicate n c).length - 100) =
      List.replicate (n - ((List.replicate n c).length - 100)) ⟨c, c, c⟩ := by
    rw [annRows_replicate, List.drop_replicate]
  have hsig0 : ∀ i, signalAt ((annRows ((List.replicate n c).map some)).drop
      ((List.replicate n c).length - 100)) i = 0 := by
    intro i
    rw [hrep]
    exact signalAt_const _ ⟨c, c, c⟩ rfl i
  have hnotmem : ∀ z : ℤ, z ≠ 0 →
      z ∉ (List.range ((annRows ((List.replicate n c).map some)).drop
        ((List.replicate n c).length - 100)).length).map
          (fun i => signalAt ((annRows ((List.replicate n c).map some)).drop
            ((List.replicate n c).length - 100)) i) := by
    intro z hz hmem
    obtain ⟨j, hj, hjz⟩ := List.mem_map.mp hmem
    rw [hsig0 j] at hjz
    exact hz hjz.symm
  refine ⟨by rw [(pipeline_shape_aux _ h2').1]; rfl, ?_, ?_⟩
  · rw [pipeline_getD_map_signal _ h2', List.count_eq_zero]
    exact hnotmem 1 (by decide)
  · rw [pipeline_getD_map_signal _ h2', List.count_eq_zero]
    exact hnotmem (-1) (by decide)

/-- Witness for C8 at a concrete constant series. -/
theorem constant_series_no_signal_witness :
    (detectPipeline (mkFrame (List.replicate 2 (1 : ℚ)))).isSome = true :=
  (constant_series_no_signal 1 2 (by norm_num)).1

/-! ### Claim C9: two-plateau step series -/

lemma stepSeries_length (a b : ℕ) (p q : ℚ) :
    (stepSeries a b p q).length = a + b := by
  unfold stepSeries
  rw [List.length_append, List.length_replicate, List.length_replicate]

lemma step_take (a b : ℕ) (p q : ℚ) (m : ℕ) (hm : m ≤ a + b) :
    (stepSeries a b p q).take m =
      List.replicate (min m a) p ++ List.replicate (m - a) q := by
  unfold stepSeries
  rw [List.take_append_eq_append_take, List.take_replicate, List.length_replicate,
    List.take_replicate]
  have e1 : min (m - a) b = m - a := by omega
  rw [e1]

lemma step_window (w a b : ℕ) (p q : ℚ) (i : ℕ) (hi : i < a + b) :
    ((stepSeries a b p q).take (i + 1)).drop (i + 1 - w) =
      List.replicate (min (i + 1) w - min (i + 1 - a) w) p ++
        List.replicate (min (i + 1 - a) w) q := by
  rw [step_take a b p q (i + 1) (by omega)]
  rw [List.drop_append_eq_append_drop, List.drop_replicate, List.length_replicate,
    List.drop_replicate]
  have e1 : min (i + 1) a - (i + 1 - w) = min (i + 1) w - min (i + 1 - a) w := by
    omega
  have e2 : (i + 1 - a) - ((i + 1 - w) - min (i + 1) a) = min (i + 1 - a) w := by
    omega
  rw [e1, e2]

lemma step_maAt (w a b : ℕ) (p q : ℚ) (i : ℕ) (hi : i < a + b) :
    maAt w (stepSeries a b p q) i =
      (((min (i + 1) w - min (i + 1 - a) w : ℕ) : ℚ) * p +
        ((min (i + 1 - a) w : ℕ) : ℚ) * q) / ((min (i + 1) w : ℕ) : ℚ) := by
  unfold maAt
  rw [step_window w a b p q i hi, List.sum_append, List.sum_replicate,
    List.sum_replicate, nsmul_eq_mul, nsmul_eq_mul]

/-- Key numeric fact behind the single-cross property: with k hi-bars
among the last m bars (0 < k < m possible only past the first plateau),
the hi-fraction of the 5-window is at least that of the 20-window, and
strictly greater exactly when 1 ≤ k, 6 ≤ m and k ≤ 19. -/
lemma natKey (k m : ℕ) (hk : k < m) :
    min k LONG_MA * min m SHORT_MA ≤ min k SHORT_MA * min m LONG_MA ∧
    (min k LONG_MA * min m SHORT_MA < min k SHORT_MA * min m LONG_MA ↔
      (1 ≤ k ∧ 6 ≤ m ∧ k ≤ 19)) := by
  simp only [SHORT_MA, LONG_MA]
  rcases le_or_lt m 5 with hm5 | hm5
  · have e1 : min k 20 = k := by omega
    have e2 : min m 5 = m := by omega
    have e3 : min k 5 = k := by omega
    have e4 : min m 20 = m := by omega
    rw [e1, e2, e3, e4]
    exact ⟨Nat.le_refl _, iff_of_false (lt_irrefl _) (by omega)⟩
  · rcases le_or_lt k 5 with hk5 | hk5
    · have e1 : min k 20 = k := by omega
      have e2 : min m 5 = 5 := by omega
      have e3 : min k 5 = k := by omega
      rw [e1, e2, e3]
      constructor
      · exact Nat.mul_le_mul (Nat.le_refl k) (by omega)
      · constructor
        · intro h
          rcases Nat.eq_zero_or_pos k with h0 | h0
          · rw [h0] at h
            simp at h
          · exact ⟨h0, by omega, by omega⟩
        · rintro ⟨h1, -, -⟩
          exact mul_lt_mul_of_pos_left (by omega) (by omega)
    · rcases le_or_lt k 19 with hk19 | hk19
      · have e1 : min k 20 = k := by omega
        have e2 : min m 5 = 5 := by omega
        have e3 : min k 5 = 5 := by omega
        rw [e1, e2, e3]
        have hmk : k < min m 20 := by omega
        constructor
        · calc k * 5 = 5 * k := Nat.mul_comm _ _
            _ ≤ 5 * min m 20 := Nat.mul_le_mul (Nat.le_refl 5) (by omega)
        · constructor
          · intro h
            exact ⟨by omega, by omega, hk19⟩
          · intro h
            calc k * 5 = 5 * k := Nat.mul_comm _ _
              _ < 5 * min m 20 := mul_lt_mul_of_pos_left hmk (by norm_num)
      · have e1 : min k 20 = 20 := by omega
        have e2 : min m 5 = 5 := by omega
        have e3 : min k 5 = 5 := by omega
        have e4 : min m 20 = 20 := by omega
        rw [e1, e2, e3, e4]
        omega

lemma step_mean_form (p q : ℚ) (u h : ℕ) (hu : 0 < u) (hh : h ≤ u) :
    (((u - h : ℕ) : ℚ) * p + ((h : ℕ) : ℚ) * q) / ((u : ℕ) : ℚ) =
      p + (q - p) * (((h : ℕ) : ℚ) / ((u : ℕ) : ℚ)) := by
  have hcast : ((u - h : ℕ) : ℚ) = ((u : ℕ) : ℚ) - ((h : ℕ) : ℚ) :=
    Nat.cast_sub hh
  have hune : ((u : ℕ) : ℚ) ≠ 0 := ne_of_gt (by exact_mod_cast hu)
  rw [hcast]
  field_simp
  ring

lemma scaled_lt_iff (p q A B : ℚ) (hAB : A ≤ B) (C : Prop) (hC : A < B ↔ C) :
    ((q - p) * A < (q - p) * B ↔ (p < q ∧ C)) ∧
    ((q - p) * B < (q - p) * A ↔ (q < p ∧ C)) := by
  rcases lt_trichotomy p q with hpq | hpq | hpq
  · constructor
    · rw [mul_lt_mul_left (sub_pos.mpr hpq), hC]
      exact (and_iff_right hpq).symm
    · rw [mul_lt_mul_left (sub_pos.mpr hpq)]
      exact iff_of_false (not_lt.mpr hAB)
        (fun hc => absurd hpq (not_lt.mpr (le_of_lt hc.1)))
  · have hz : q - p = 0 := by rw [hpq]; ring
    constructor
    · exact iff_of_false (by rw [hz, zero_mul, zero_mul]; exact lt_irrefl 0)
        (fun hc => absurd hc.1 (by rw [hpq]; exact lt_irrefl q))
    · exact iff_of_false (by rw [hz, zero_mul, zero_mul]; exact lt_irrefl 0)
        (fun hc => absurd hc.1 (by rw [hpq]; exact lt_irrefl q))
  · constructor
    · rw [mul_lt_mul_left_of_neg (by linarith : q - p < 0)]
      exact iff_of_false (not_lt.mpr hAB)
        (fun hc => absurd hc.1 (not_lt.mpr (le_of_lt hpq)))
    · rw [mul_lt_mul_left_of_neg (by linarith : q - p < 0), hC]
      exact (and_iff_right hpq).symm

lemma step_cmp (a b : ℕ) (p q : ℚ) (ha : 1 ≤ a) (i : ℕ) (hi : i < a + b) :
    (maAt LONG_MA (stepSeries a b p q) i < maAt SHORT_MA (stepSeries a b p q) i ↔
      (p < q ∧ (a ≤ i ∧ 5 ≤ i ∧ i ≤ a + 18))) ∧
    (maAt SHORT_MA (stepSeries a b p q) i < maAt LONG_MA (stepSeries a b p q) i ↔
      (q < p ∧ (a ≤ i ∧ 5 ≤ i ∧ i ≤ a + 18))) := by
  have hS : SHORT_MA = 5 := rfl
  have hL : LONG_MA = 20 := rfl
  have hu5 : 0 < min (i + 1) SHORT_MA := by omega
  have hu20 : 0 < min (i + 1) LONG_MA := by omega
  have hh5 : min (i + 1 - a) SHORT_MA ≤ min (i + 1) SHORT_MA := by omega
  have hh20 : min (i + 1 - a) LONG_MA ≤ min (i + 1) LONG_MA := by omega
  have hkey := natKey (i + 1 - a) (i + 1) (by omega)
  have hABle : ((min (i + 1 - a) LONG_MA : ℕ) : ℚ) / ((min (i + 1) LONG_MA : ℕ) : ℚ) ≤
      ((min (i + 1 - a) SHORT_MA : ℕ) : ℚ) / ((min (i + 1) SHORT_MA : ℕ) : ℚ) := by
    rw [div_le_div_iff₀ (by exact_mod_cast hu20) (by exact_mod_cast hu5)]
    exact_mod_cast hkey.1
  have hABlt : (((min (i + 1 - a) LONG_MA : ℕ) : ℚ) / ((min (i + 1) LONG_MA : ℕ) : ℚ) <
      ((min (i + 1 - a) SHORT_MA : ℕ) : ℚ) / ((min (i + 1) SHORT_MA : ℕ) : ℚ)) ↔
      (a ≤ i ∧ 5 ≤ i ∧ i ≤ a + 18) := by
    rw [div_lt_div_iff₀ (by exact_mod_cast hu20) (by exact_mod_cast hu5)]
    constructor
    · intro h
      have hnat : min (i + 1 - a) LONG_MA * min (i + 1) SHORT_MA <
          min (i + 1 - a) SHORT_MA * min (i + 1) LONG_MA := by exact_mod_cast h
      have := hkey.2.mp hnat
      omega
    · intro h
      have hnat := hkey.2.mpr (by omega)
      exact_mod_cast hnat
  have hform5 := step_mean_form p q (min (i + 1) SHORT_MA) (min (i + 1 - a) SHORT_MA)
    hu5 hh5
  have hform20 := step_mean_form p q (min (i + 1) LONG_MA) (min (i + 1 - a) LONG_MA)
    hu20 hh20
  have hsc := scaled_lt_iff p q
    (((min (i + 1 - a) LONG_MA : ℕ) : ℚ) / ((min (i + 1) LONG_MA : ℕ) : ℚ))
    (((min (i + 1 - a) SHORT_MA : ℕ) : ℚ) / ((min (i + 1) SHORT_MA : ℕ) : ℚ))
    hABle _ hABlt
  constructor
  · rw [step_maAt SHORT_MA a b p q i hi, step_maAt LONG_MA a b p q i hi,
      hform5, hform20, add_lt_add_iff_left]
    exact hsc.1
  · rw [step_maAt SHORT_MA a b p q i hi, step_maAt LONG_MA a b p q i hi,
      hform5, hform20, add_lt_add_iff_left]
    exact hsc.2

lemma step_signal_up (a b : ℕ) (p q : ℚ) (ha : 1 ≤ a) (hpq : p < q) (i : ℕ)
    (hi : i < a + b) :
    signalAt (annRows ((stepSeries a b p q).map some)) i =
      if i = max a 5 then 1 else 0 := by
  have hlen : (stepSeries a b p q).length = a + b := stepSeries_length a b p q
  by_cases h0 : i = 0
  · subst h0
    rw [signalAt_zero, if_neg (by omega)]
  · have h1 : 1 ≤ i := by omega
    have hi' : i < (annRows ((stepSeries a b p q).map some)).length := by
      rw [annRows_map_some_length, hlen]
      exact hi
    rw [signalAt_pos _ i h1 hi',
      annRows_map_some_getD (stepSeries a b p q) i (by rw [hlen]; exact hi),
      annRows_map_some_getD (stepSeries a b p q) (i - 1) (by rw [hlen]; omega)]
    dsimp only
    have hcmpI := step_cmp a b p q ha i hi
    have hcmpP := step_cmp a b p q ha (i - 1) (by omega)
    by_cases hmax : i = max a 5
    · have hCi : a ≤ i ∧ 5 ≤ i ∧ i ≤ a + 18 := by omega
      have hCp : ¬(a ≤ i - 1 ∧ 5 ≤ i - 1 ∧ i - 1 ≤ a + 18) := by omega
      have hup : maAt LONG_MA (stepSeries a b p q) i <
          maAt SHORT_MA (stepSeries a b p q) i := hcmpI.1.mpr ⟨hpq, hCi⟩
      have hnltp : ¬(maAt LONG_MA (stepSeries a b p q) (i - 1) <
          maAt SHORT_MA (stepSeries a b p q) (i - 1)) :=
        fun hlt => hCp (hcmpP.1.mp hlt).2
      have hple : maAt SHORT_MA (stepSeries a b p q) (i - 1) ≤
          maAt LONG_MA (stepSeries a b p q) (i - 1) := not_lt.mp hnltp
      rw [if_pos ⟨hup, hple⟩, if_pos hmax]
    · have hnup : ¬(maAt SHORT_MA (stepSeries a b p q) i >
          maAt LONG_MA (stepSeries a b p q) i ∧
          maAt SHORT_MA (stepSeries a b p q) (i - 1) ≤
            maAt LONG_MA (stepSeries a b p q) (i - 1)) := by
        rintro ⟨hgt, hle⟩
        have hCi := (hcmpI.1.mp hgt).2
        have hnCp : ¬(a ≤ i - 1 ∧ 5 ≤ i - 1 ∧ i - 1 ≤ a + 18) := by
          intro hCp
          exact absurd hle (not_le.mpr (hcmpP.1.mpr ⟨hpq, hCp⟩))
        omega
      have hnd : ¬(maAt SHORT_MA (stepSeries a b p q) i <
          maAt LONG_MA (stepSeries a b p q) i ∧
          maAt SHORT_MA (stepSeries a b p q) (i - 1) ≥
            maAt LONG_MA (stepSeries a b p q) (i - 1)) := by
        rintro ⟨hlt, -⟩
        exact absurd (hcmpI.2.mp hlt).1 (not_lt.mpr (le_of_lt hpq))
      rw [if_neg hnup, if_neg hnd, if_neg hmax]

lemma step_signal_down (a b : ℕ) (p q : ℚ) (ha : 1 ≤ a) (hqp : q < p) (i : ℕ)
    (hi : i < a + b) :
    signalAt (annRows ((stepSeries a b p q).map some)) i =
      if i = max a 5 then -1 else 0 := by
  have hlen : (stepSeries a b p q).length = a + b := stepSeries_length a b p q
  by_cases h0 : i = 0
  · subst h0
    rw [signalAt_zero, if_neg (by omega)]
  · have h1 : 1 ≤ i := by omega
    have hi' : i < (annRows ((stepSeries a b p q).map some)).length := by
      rw [annRows_map_some_length, hlen]
      exact hi
    rw [signalAt_pos _ i h1 hi',
      annRows_map_some_getD (stepSeries a b p q) i (by rw [hlen]; exact hi),
      annRows_map_some_getD (stepSeries a b p q) (i - 1) (by rw [hlen]; omega)]
    dsimp only
    have hcmpI := step_cmp a b p q ha i hi
    have hcmpP := step_cmp a b p q ha (i - 1) (by omega)
    have hnup : ¬(maAt SHORT_MA (stepSeries a b p q) i >
        maAt LONG_MA (stepSeries a b p q) i ∧
        maAt SHORT_MA (stepSeries a b p q) (i - 1) ≤
          maAt LONG_MA (stepSeries a b p q) (i - 1)) := by
      rintro ⟨hgt, -⟩
      exact absurd (hcmpI.1.mp hgt).1 (not_lt.mpr (le_of_lt hqp))
    rw [if_neg hnup]
    by_cases hmax : i = max a 5
    · have hCi : a ≤ i ∧ 5 ≤ i ∧ i ≤ a + 18 := by omega
      have hCp : ¬(a ≤ i - 1 ∧ 5 ≤ i - 1 ∧ i - 1 ≤ a + 18) := by omega
      have hdown : maAt SHORT_MA (stepSeries a b p q) i <
          maAt LONG_MA (stepSeries a b p q) i := hcmpI.2.mpr ⟨hqp, hCi⟩
      have hnltp : ¬(maAt SHORT_MA (stepSeries a b p q) (i - 1) <
          maAt LONG_MA (stepSeries a b p q) (i - 1)) :=
        fun hlt => hCp (hcmpP.2.mp hlt).2
      have hge : maAt SHORT_MA (stepSeries a b p q) (i - 1) ≥
          maAt LONG_MA (stepSeries a b p q) (i - 1) := not_lt.mp hnltp
      rw [if_pos ⟨hdown, hge⟩, if_pos hmax]
    · have hnd : ¬(maAt SHORT_MA (stepSeries a b p q) i <
          maAt LONG_MA (stepSeries a b p q) i ∧
          maAt SHORT_MA (stepSeries a b p q) (i - 1) ≥
            maAt LONG_MA (stepSeries a b p q) (i - 1)) := by
        rintro ⟨hlt, hge⟩
        have hCi := (hcmpI.2.mp hlt).2
        have hnCp : ¬(a ≤ i - 1 ∧ 5 ≤ i - 1 ∧ i - 1 ≤ a + 18) := by
          intro hCp
          exact absurd hge (not_le.mpr (hcmpP.2.mpr ⟨hqp, hCp⟩))
        omega
      rw [if_neg hnd, if_neg hmax]

/-! ### Counting the single cross -/

lemma map_ite_range_all_zero (n m : ℕ) (c : ℤ) (hm : n ≤ m) :
    (List.range n).map (fun i => if i = m then c else 0) =
      List.replicate n 0 := by
  have hcong : ∀ i ∈ List.range n, (if i = m then c else 0) = (0 : ℤ) := by
    intro i hi
    have := List.mem_range.mp hi
    rw [if_neg (by omega)]
  rw [List.map_congr_left hcong, List.map_const']
  simp

lemma count_replicate_zero (n : ℕ) (c : ℤ) (hc : c ≠ 0) :
    (List.replicate n (0 : ℤ)).count c = 0 := by
  rw [List.count_eq_zero]
  intro hmem
  exact hc (List.eq_of_mem_replicate hmem)

lemma count_map_ite_self (n m : ℕ) (c : ℤ) (hc : c ≠ 0) (hm : m < n) :
    ((List.range n).map (fun i => if i = m then c else 0)).count c = 1 := by
  induction n with
  | zero => omega
  | succ n ih =>
      rw [List.range_succ, List.map_append, List.count_append]
      by_cases hmn : m = n
      · subst hmn
        rw [map_ite_range_all_zero m m c (Nat.le_refl m),
          count_replicate_zero m c hc]
        simp
      · have hmn' : m < n := by omega
        rw [ih hmn']
        have hz : (if n = m then c else 0) = (0 : ℤ) := by
          rw [if_neg (by omega)]
        simp [hz, hc]

lemma count_map_ite_other (n m : ℕ) (c d : ℤ) (hd : d ≠ 0) (hdc : d ≠ c) :
    ((List.range n).map (fun i => if i = m then c else 0)).count d = 0 := by
  rw [List.count_eq_zero]
  intro hmem
  obtain ⟨j, hj, hjd⟩ := List.mem_map.mp hmem
  by_cases hjm : j = m
  · rw [if_pos hjm] at hjd
    exact hdc hjd.symm
  · rw [if_neg hjm] at hjd
    exact hd hjd.symm

lemma step_pipeline_props (cs : List ℚ) (n : ℕ) (hn : cs.length = n)
    (h2 : 2 ≤ n) (h100 : n ≤ 100) (m : ℕ) (hm : m < n) (s : ℤ) (hs : s ≠ 0)
    (hsig : ∀ i, i < n →
      signalAt (annRows (cs.map some)) i = if i = m then s else 0) :
    (detectPipeline (mkFrame cs)).isSome = true ∧
    ((detectPipeline (mkFrame cs)).getD []).length = n ∧
    (((detectPipeline (mkFrame cs)).getD []).map SigRow.signal).count s = 1 ∧
    (∀ d : ℤ, d ≠ 0 → d ≠ s →
      (((detectPipeline (mkFrame cs)).getD []).map SigRow.signal).count d = 0) ∧
    (∀ i, i < n →
      ((((detectPipeline (mkFrame cs)).getD []).getD i default).signal = s ↔
        i = m)) := by
  have h2' : 2 ≤ cs.length := by omega
  have hdrop : (annRows (cs.map some)).drop (cs.length - 100) =
      annRows (cs.map some) := by
    rw [show cs.length - 100 = 0 by omega, List.drop_zero]
  have hlen : (annRows (cs.map some)).length = n := by
    rw [annRows_map_some_length, hn]
  have hmap : ((detectPipeline (mkFrame cs)).getD []).map SigRow.signal =
      (List.range n).map (fun i => if i = m then s else 0) := by
    rw [pipeline_getD_map_signal cs h2', hdrop, hlen]
    exact List.map_congr_left (fun i hi => hsig i (List.mem_range.mp hi))
  refine ⟨pipeline_mkFrame_isSome cs h2', ?_, ?_, ?_, ?_⟩
  · rw [pipeline_getD_length cs h2', hn]
    omega
  · rw [hmap]
    exact count_map_ite_self n m s hs hm
  · intro d hd hds
    rw [hmap]
    exact count_map_ite_other n m s d hd hds
  · intro i hi
    have hi' : i < ((annRows (cs.map some)).drop (cs.length - 100)).length := by
      rw [hdrop, hlen]
      exact hi
    rw [pipeline_getD_signal_at cs h2' i hi', hdrop, hsig i hi]
    by_cases him : i = m
    · rw [if_pos him]
      exact iff_of_true rfl him
    · rw [if_neg him]
      exact iff_of_false (fun h => hs h.symm) him

/-- C9 (amended): for every two-plateau step series of total length
between 6 and 100 bars (low plateau of a bars, high plateau of b bars,
both non-empty, strictly different levels), the pipeline fires exactly
one upward cross on the ascending step — at bar max(a, 5), the first bar
on which the short mean strictly exceeds the long mean after being
at-or-below it on the previous bar — and no downward cross; the
descending step symmetrically fires exactly one downward cross at
max(a, 5) and no upward cross.  Shorter steps fire nothing because the
two warm-up means coincide on every bar, and on series beyond 100 bars
the cross can be lost to the 100-row truncation. -/
theorem step_series_single_cross (a b : ℕ) (p q : ℚ) (ha : 1 ≤ a) (hb : 1 ≤ b)
    (hpq : p < q) (h6 : 6 ≤ a + b) (h100 : a + b ≤ 100) :
    (detectPipeline (mkFrame (stepSeries a b p q))).isSome = true ∧
    (detectPipeline (mkFrame (stepSeries a b q p))).isSome = true ∧
    (((detectPipeline (mkFrame (stepSeries a b p q))).getD []).length = a + b ∧
      ((((detectPipeline (mkFrame (stepSeries a b p q))).getD []).map
          SigRow.signal).count 1 = 1 ∧
        (((detectPipeline (mkFrame (stepSeries a b p q))).getD []).map
          SigRow.signal).count (-1) = 0) ∧
      (∀ i, i < a + b →
        ((((detectPipeline (mkFrame (stepSeries a b p q))).getD []).getD i
            default).signal = 1 ↔ i = max a 5))) ∧
    (((detectPipeline (mkFrame (stepSeries a b q p))).getD []).length = a + b ∧
      ((((detectPipeline (mkFrame (stepSeries a b q p))).getD []).map
          SigRow.signal).count (-1) = 1 ∧
        (((detectPipeline (mkFrame (stepSeries a b q p))).getD []).map
          SigRow.signal).count 1 = 0) ∧
      (∀ i, i < a + b →
        ((((detectPipeline (mkFrame (stepSeries a b q p))).getD []).getD i
            default).signal = -1 ↔ i = max a 5))) := by
  have hmax : max a 5 < a + b := by omega
  have hU := step_pipeline_props (stepSeries a b p q) (a + b)
    (stepSeries_length a b p q) (by omega) h100 (max a 5) hmax 1 (by decide)
    (fun i hi => step_signal_up a b p q ha hpq i hi)
  have hD := step_pipeline_props (stepSeries a b q p) (a + b)
    (stepSeries_length a b q p) (by omega) h100 (max a 5) hmax (-1) (by decide)
    (fun i hi => step_signal_down a b q p ha hpq i hi)
  exact ⟨hU.1, hD.1,
    ⟨hU.2.1, ⟨hU.2.2.1, hU.2.2.2.1 (-1) (by decide) (by decide)⟩, hU.2.2.2.2⟩,
    ⟨hD.2.1, ⟨hD.2.2.1, hD.2.2.2.1 1 (by decide) (by decide)⟩, hD.2.2.2.2⟩⟩

lemma signalAt_tie (rows : List AnnRow) (i : ℕ) (hi : i < rows.length)
    (heq : (rows.getD i default).shortMA = (rows.getD i default).longMA) :
    signalAt rows i = 0 := by
  rcases Nat.eq_zero_or_pos i with h0 | h1
  · subst h0
    exact signalAt_zero rows
  · rw [signalAt_pos rows i h1 hi]
    have hnu : ¬((rows.getD i default).shortMA > (rows.getD i default).longMA ∧
        (rows.getD (i - 1) default).shortMA ≤ (rows.getD (i - 1) default).longMA) := by
      intro hc
      rw [heq] at hc
      exact absurd hc.1 (lt_irrefl _)
    have hnd : ¬((rows.getD i default).shortMA < (rows.getD i default).longMA ∧
        (rows.getD (i - 1) default).shortMA ≥ (rows.getD (i - 1) default).longMA) := by
      intro hc
      rw [heq] at hc
      exact absurd hc.1 (lt_irrefl _)
    rw [if_neg hnu, if_neg hnd]

lemma maAt_small_eq (cs : List ℚ) (i : ℕ) (hi5 : i + 1 ≤ SHORT_MA) :
    maAt SHORT_MA cs i = maAt LONG_MA cs i := by
  have hS : SHORT_MA = 5 := rfl
  have hL : LONG_MA = 20 := rfl
  unfold maAt
  rw [show i + 1 - SHORT_MA = 0 by omega, show i + 1 - LONG_MA = 0 by omega,
    show min (i + 1) SHORT_MA = i + 1 by omega,
    show min (i + 1) LONG_MA = i + 1 by omega]

/-- Counterexample to C9 as stated: the ascending step [10, 12] — one
bar per plateau, strictly higher second plateau — is accepted by the
pipeline, yet it emits zero upward crosses rather than exactly one: on
every bar of so short a series the two warm-up means coincide. -/
theorem step_two_bars_no_cross_cex :
    (((detectPipeline (mkFrame (stepSeries 1 1 10 12))).getD []).map
        SigRow.signal).count 1 = 0 ∧ (0 : ℕ) ≠ 1 := by
  refine ⟨?_, by decide⟩
  have hlen : (stepSeries 1 1 (10 : ℚ) 12).length = 2 :=
    stepSeries_length 1 1 10 12
  have h2' : 2 ≤ (stepSeries 1 1 (10 : ℚ) 12).length := by omega
  have hdrop : (annRows ((stepSeries 1 1 (10 : ℚ) 12).map some)).drop
      ((stepSeries 1 1 (10 : ℚ) 12).length - 100) =
      annRows ((stepSeries 1 1 (10 : ℚ) 12).map some) := by
    rw [show (stepSeries 1 1 (10 : ℚ) 12).length - 100 = 0 by omega,
      List.drop_zero]
  rw [pipeline_getD_map_signal _ h2', hdrop, List.count_eq_zero]
  intro hmem
  obtain ⟨j, hj, hj1⟩ := List.mem_map.mp hmem
  have hjlt : j < 2 := by
    have hjr := List.mem_range.mp hj
    rw [annRows_map_some_length, hlen] at hjr
    exact hjr
  have hann := annRows_map_some_getD (stepSeries 1 1 (10 : ℚ) 12) j
    (by omega)
  have htie : signalAt (annRows ((stepSeries 1 1 (10 : ℚ) 12).map some)) j = 0 := by
    apply signalAt_tie
    · rw [annRows_map_some_length]
      omega
    · rw [hann]
      exact maAt_small_eq (stepSeries 1 1 10 12) j
        (by have hS : SHORT_MA = 5 := rfl; omega)
  rw [htie] at hj1
  exact absurd hj1 (by decide)

/-- Witness for the amended C9 at a concrete 6-bar step. -/
theorem step_series_single_cross_witness :
    (detectPipeline (mkFrame (stepSeries 1 5 10 12))).isSome = true ∧
    (detectPipeline (mkFrame (stepSeries 1 5 12 10))).isSome = true := by
  have h := step_series_single_cross 1 5 10 12 (by norm_num) (by norm_num)
    (by norm_num) (by norm_num) (by norm_num)
  exact ⟨h.1, h.2.1⟩

/-! ### Claim C10: the orchestrator -/

lemma strategy_main_eq (df : RawFrame) :
    strategy_main (some df) =
      if df.nrows = 0 then 0
      else
        match detectPipeline df with
        | none => 0
        | some rows =>
            match rows.getLast? with
            | none => 0
            | some latest => if 0 < latest.signal.natAbs then 1 else 0 := by
  simp only [strategy_main, detectPipeline]
  by_cases h0 : df.nrows = 0
  · rw [if_pos h0, if_pos h0]
  · rw [if_neg h0, if_neg h0]
    cases hc : calculate_ma df with
    | none => rfl
    | some ann => rfl

/-- C10: one orchestrator run attempts at most one notification: none
when the fetch fails, the frame is empty, or any stage returns None;
when the pipeline succeeds, exactly one notification is attempted iff
the most recent annotated bar carries a non-neutral signal; and the
decision depends only on that last bar, never on earlier ones. -/
theorem strategy_main_single_notification :
    (strategy_main none = 0) ∧
    (∀ df : RawFrame, strategy_main (some df) ≤ 1) ∧
    (∀ df : RawFrame, df.nrows = 0 → strategy_main (some df) = 0) ∧
    (∀ df : RawFrame, detectPipeline df = none → strategy_main (some df) = 0) ∧
    (∀ (df : RawFrame) (rows : List SigRow) (r : SigRow), df.nrows ≠ 0 →
      detectPipeline df = some rows → rows.getLast? = some r →
      strategy_main (some df) = if r.signal ≠ 0 then 1 else 0) ∧
    (∀ (df1 df2 : RawFrame) (rows1 rows2 : List SigRow),
      df1.nrows ≠ 0 → df2.nrows ≠ 0 →
      detectPipeline df1 = some rows1 → detectPipeline df2 = some rows2 →
      rows1.getLast? = rows2.getLast? →
      strategy_main (some df1) = strategy_main (some df2)) := by
  refine ⟨rfl, ?_, ?_, ?_, ?_, ?_⟩
  · intro df
    rw [strategy_main_eq]
    by_cases h0 : df.nrows = 0
    · rw [if_pos h0]
      exact Nat.zero_le 1
    · rw [if_neg h0]
      cases detectPipeline df with
      | none => exact Nat.zero_le 1
      | some rows =>
          dsimp only
          cases rows.getLast? with
          | none => exact Nat.zero_le 1
          | some latest =>
              dsimp only
              by_cases hpos : 0 < latest.signal.natAbs
              · rw [if_pos hpos]
              · rw [if_neg hpos]
                exact Nat.zero_le 1
  · intro df h0
    rw [strategy_main_eq, if_pos h0]
  · intro df hp
    rw [strategy_main_eq]
    by_cases h0 : df.nrows = 0
    · rw [if_pos h0]
    · rw [if_neg h0, hp]
  · intro df rows r h0 hp hr
    rw [strategy_main_eq, if_neg h0, hp]
    dsimp only
    rw [hr]
    dsimp only
    simp only [Int.natAbs_pos]
  · intro df1 df2 rows1 rows2 h01 h02 hp1 hp2 hlast
    rw [strategy_main_eq, strategy_main_eq, if_neg h01, if_neg h02, hp1, hp2]
    dsimp only
    rw [hlast]

/-- Witness for C10: a non-empty frame whose close column is missing
makes the pipeline fail, and the run attempts no notification. -/
theorem strategy_main_single_notification_witness :
    strategy_main (some ⟨2, none⟩) = 0 :=
  strategy_main_single_notification.2.2.2.1 ⟨2, none⟩ rfl

end MACross
